import Mathlib

/-!
Verification development for the AI Streamlit playground (app.py).

The file embeds, in Lean, the pure logic of the application:

* `process_prompt` — the `@[path]` macro expander (app.py lines 16-45),
  over an abstract filesystem `FS`;
* default provider / default model resolution (app.py lines 126-135 and
  160-175);
* the chat-turn pipeline: file-context block assembly, payload assembly,
  stream accumulation and the history append discipline
  (app.py lines 341-415);
* the text-transformation payload (app.py lines 459-472).

Python exceptions are modelled with `Except Unit`; the mutable
`st.session_state["messages"]` list is modelled by explicit state
passing (a `List Message` in, a new one out).
-/

/-- Result of probing a path on the filesystem, as seen by
`replace_match` in app.py (lines 24-36).  `os.path.exists` failing gives
`absent`; `open`/`read` raising `OSError`/`IOError` gives `osError`;
`read` raising `UnicodeDecodeError` on an existing file whose bytes are
not valid UTF-8 gives `decodeError` (that exception is a `ValueError`,
so the `except (OSError, IOError)` clause of app.py does NOT catch it);
a successful UTF-8 read gives `content`. -/
inductive FSEntry where
  | absent
  | osError
  | decodeError
  | content (s : String)
deriving DecidableEq, Repr

/-- Abstract filesystem: what each path resolves to. -/
def FS : Type := String → FSEntry

/-- Models Python `str.strip()`: drop leading and trailing whitespace
characters (ASCII whitespace; Python also strips a few rarer Unicode
space characters, which no claim exercises). -/
def pstrip (s : String) : String :=
  ⟨((s.data.dropWhile Char.isWhitespace).reverse.dropWhile Char.isWhitespace).reverse⟩

/-- The body of `replace_match` (app.py lines 24-36) applied to the
captured path of one `@[path]` match.  A `decodeError` read makes the
whole substitution raise (modelled by `Except.error`), because the
`except` clause only covers `OSError` and `IOError`. -/
def replace_match (fs : FS) (path : String) : Except Unit String :=
  match fs path with
  | .absent => .ok ("[File not found: " ++ path ++ "]")
  | .osError => .ok ("[Error reading " ++ path ++ "]")
  | .decodeError => .error ()
  | .content s => .ok (pstrip s)

/-- Split a character list at the first closing bracket: returns the
characters before the first `]` and the characters after it, or `none`
when the list has no `]`.  This captures how the regular expression
`@\x5b([^]]+)\x5d` delimits the captured path: the character class
excludes `]`, so a match extends exactly to the first `]`. -/
def splitAtRBracket : List Char → Option (List Char × List Char)
  | [] => none
  | c :: rest =>
    if c = ']' then some ([], rest)
    else (splitAtRBracket rest).map (fun pr => (c :: pr.1, pr.2))

deriving instance DecidableEq for Except

theorem splitAtRBracket_length {l p r : List Char}
    (h : splitAtRBracket l = some (p, r)) : r.length < l.length := by
  induction l generalizing p r with
  | nil => simp [splitAtRBracket] at h
  | cons c rest ih =>
    by_cases hc : c = ']'
    · rw [splitAtRBracket, if_pos hc] at h
      injection h with h1
      injection h1 with h2 h3
      subst h3
      simp
    · rw [splitAtRBracket, if_neg hc] at h
      cases hs : splitAtRBracket rest with
      | none => rw [hs] at h; simp at h
      | some pr =>
        obtain ⟨p1, r1⟩ := pr
        rw [hs] at h
        simp only [Option.map_some'] at h
        injection h with h1
        injection h1 with h2 h3
        subst h3
        have := ih (p := p1) (r := r1) hs
        simp only [List.length_cons]
        omega

/-- One substitution pass of `re.sub(r'@\x5b([^]]+)\x5d', replace_match, text)`
over a character list, with a fuel argument (the fuel is instantiated
with the length of the list, which always suffices).  The scan is a
single left-to-right pass: at `@[` followed by a non-empty run of
non-`]` characters and a `]`, the whole match is replaced by the result
of `replace_match` and the scan resumes AFTER the match (replacement
text is not rescanned within the pass); everything else is copied
through.  A raising `replace_match` aborts the pass, as in Python. -/
def scanSubAux (fs : FS) : Nat → List Char → Except Unit (List Char)
  | _, [] => .ok []
  | 0, l => .ok l
  | fuel+1, '@' :: '[' :: rest =>
    match splitAtRBracket rest with
    | some (p, rest1) =>
      if p = [] then
        (scanSubAux fs fuel rest).map (fun t => '@' :: '[' :: t)
      else
        (replace_match fs ⟨p⟩).bind (fun r =>
          (scanSubAux fs fuel rest1).map (fun t => r.data ++ t))
    | none =>
      (scanSubAux fs fuel rest).map (fun t => '@' :: '[' :: t)
  | fuel+1, c :: rest =>
    (scanSubAux fs fuel rest).map (fun t => c :: t)

/-- One full `re.sub` pass over a string. -/
def subPass (fs : FS) (s : String) : Except Unit String :=
  (scanSubAux fs s.data.length s.data).map (fun l => ⟨l⟩)

/-- The pass loop of `process_prompt` (app.py lines 38-45):
`for _ in range(n)` applying `re.sub`, breaking as soon as a pass
returns the text unchanged, and returning the current text when the
range is exhausted. -/
def expandLoop (fs : FS) : Nat → String → Except Unit String
  | 0, text => .ok text
  | n+1, text =>
    match subPass fs text with
    | .error e => .error e
    | .ok newText => if newText = text then .ok text else expandLoop fs n newText

/-- `process_prompt` (app.py lines 16-45): empty text is returned
unchanged (the `if not text` fast path); otherwise up to 3 substitution
passes are applied with an early stop at a fixed point. -/
def process_prompt (fs : FS) (text : String) : Except Unit String :=
  if text = "" then .ok text else expandLoop fs 3 text

/-- `k`-fold composition of `subPass` (no early stop); used to state the
pass-count bound of claim C4. -/
def iterPass (fs : FS) : Nat → String → Except Unit String
  | 0, t => .ok t
  | n+1, t => (subPass fs t).bind (iterPass fs n)

/-- Companion to `scanSubAux`: decides, with the same scan, whether the
text contains at least one match of the pattern `@\x5b([^]]+)\x5d`. -/
def hasMacroAux : Nat → List Char → Bool
  | _, [] => false
  | 0, _ => false
  | fuel+1, '@' :: '[' :: rest =>
    match splitAtRBracket rest with
    | some (p, _) => if p = [] then hasMacroAux fuel rest else true
    | none => hasMacroAux fuel rest
  | fuel+1, _ :: rest => hasMacroAux fuel rest

/-- Whether a string still contains a `@[path]` macro reference. -/
def hasMacro (s : String) : Bool := hasMacroAux s.data.length s.data

/-- The empty filesystem: every path is missing. -/
def fsEmpty : FS := fun _ => .absent

example : process_prompt fsEmpty "@[missing.txt]" = .ok "[File not found: missing.txt]" := by
  decide

example : process_prompt fsEmpty "hello world" = .ok "hello world" := by decide

example : hasMacro "a @[b] c" = true := by decide

example : hasMacro "a @[] c" = false := by decide

/-! ### Reduction helpers for the scan -/

theorem scanSubAux_match_some (fs : FS) (fuel : Nat) (rest p rest1 : List Char)
    (hs : splitAtRBracket rest = some (p, rest1)) :
    scanSubAux fs (fuel+1) ('@' :: '[' :: rest) =
      if p = [] then (scanSubAux fs fuel rest).map (fun t => '@' :: '[' :: t)
      else (replace_match fs ⟨p⟩).bind (fun r =>
        (scanSubAux fs fuel rest1).map (fun t => r.data ++ t)) := by
  rw [scanSubAux.eq_def]
  simp only [hs]

theorem scanSubAux_match_none (fs : FS) (fuel : Nat) (rest : List Char)
    (hs : splitAtRBracket rest = none) :
    scanSubAux fs (fuel+1) ('@' :: '[' :: rest) =
      (scanSubAux fs fuel rest).map (fun t => '@' :: '[' :: t) := by
  rw [scanSubAux.eq_def]
  simp only [hs]

theorem scanSubAux_cons_ne (fs : FS) (fuel : Nat) (c : Char) (rest : List Char)
    (hneg : ∀ r1 : List Char, c = '@' → rest = '[' :: r1 → False) :
    scanSubAux fs (fuel+1) (c :: rest) =
      (scanSubAux fs fuel rest).map (fun t => c :: t) := by
  rw [scanSubAux.eq_def]
  split
  · rename_i heq
    exact absurd heq (by simp)
  · rename_i hfe hov
    exact absurd hfe (by omega)
  · rename_i rest2 heq1 heq2
    injection heq2 with hc hr
    exact (hneg rest2 hc hr).elim
  · rename_i hov hfe hle
    injection hle with hc hr
    subst hc
    subst hr
    have hf : _ = fuel := Nat.succ.inj hfe.symm
    subst hf
    rfl

theorem hasMacroAux_match_some (fuel : Nat) (rest p rest1 : List Char)
    (hs : splitAtRBracket rest = some (p, rest1)) :
    hasMacroAux (fuel+1) ('@' :: '[' :: rest) =
      if p = [] then hasMacroAux fuel rest else true := by
  rw [hasMacroAux.eq_def]
  simp only [hs]

theorem hasMacroAux_match_none (fuel : Nat) (rest : List Char)
    (hs : splitAtRBracket rest = none) :
    hasMacroAux (fuel+1) ('@' :: '[' :: rest) = hasMacroAux fuel rest := by
  rw [hasMacroAux.eq_def]
  simp only [hs]

theorem hasMacroAux_cons_ne (fuel : Nat) (c : Char) (rest : List Char)
    (hneg : ∀ r1 : List Char, c = '@' → rest = '[' :: r1 → False) :
    hasMacroAux (fuel+1) (c :: rest) = hasMacroAux fuel rest := by
  rw [hasMacroAux.eq_def]
  split
  · rename_i heq
    exact absurd heq (by simp)
  · rename_i hfe hov
    exact absurd hfe (by omega)
  · rename_i rest2 heq1 heq2
    injection heq2 with hc hr
    exact (hneg rest2 hc hr).elim
  · rename_i hov hfe hle
    injection hle with hc hr
    subst hc
    subst hr
    have hf : _ = fuel := Nat.succ.inj hfe.symm
    subst hf
    rfl

/-! ### A pass is the identity on macro-free text -/

theorem scanSubAux_macroFree (fs : FS) :
    ∀ fuel l, hasMacroAux fuel l = false → scanSubAux fs fuel l = .ok l := by
  intro fuel l
  induction fuel, l using scanSubAux.induct fs with
  | case1 t => intro _; cases t <;> rfl
  | case2 l hl =>
    intro _
    cases l with
    | nil => rfl
    | cons c r => rfl
  | case3 fuel rest rest1 hsplit ih =>
    intro h
    rw [hasMacroAux_match_some fuel rest [] rest1 hsplit, if_pos rfl] at h
    rw [scanSubAux_match_some fs fuel rest [] rest1 hsplit, if_pos rfl, ih h]
    rfl
  | case4 fuel rest p rest1 hsplit hp ih =>
    intro h
    rw [hasMacroAux_match_some fuel rest p rest1 hsplit, if_neg hp] at h
    exact absurd h (by simp)
  | case5 fuel rest hsplit ih =>
    intro h
    rw [hasMacroAux_match_none fuel rest hsplit] at h
    rw [scanSubAux_match_none fs fuel rest hsplit, ih h]
    rfl
  | case6 fuel c rest hneg ih =>
    intro h
    rw [hasMacroAux_cons_ne fuel c rest hneg] at h
    rw [scanSubAux_cons_ne fs fuel c rest hneg, ih h]
    rfl

theorem subPass_macroFree (fs : FS) (s : String) (h : hasMacro s = false) :
    subPass fs s = .ok s := by
  unfold subPass
  rw [scanSubAux_macroFree fs s.data.length s.data h]
  rfl

theorem process_prompt_macroFree (fs : FS) (s : String) (h : hasMacro s = false) :
    process_prompt fs s = .ok s := by
  unfold process_prompt
  by_cases hs : s = ""
  · simp [hs]
  · rw [if_neg hs]
    unfold expandLoop
    rw [subPass_macroFree fs s h]
    simp

/-! ### Without decode failures the expander never raises -/

theorem replace_match_no_decode (fs : FS) (hfs : ∀ p, fs p ≠ .decodeError)
    (path : String) : ∃ r, replace_match fs path = .ok r := by
  unfold replace_match
  cases hc : fs path with
  | absent => exact ⟨_, rfl⟩
  | osError => exact ⟨_, rfl⟩
  | decodeError => exact absurd hc (hfs path)
  | content s => exact ⟨_, rfl⟩

theorem scanSubAux_no_decode (fs : FS) (hfs : ∀ p, fs p ≠ .decodeError) :
    ∀ fuel l, ∃ t, scanSubAux fs fuel l = .ok t := by
  intro fuel l
  induction fuel, l using scanSubAux.induct fs with
  | case1 t => exact ⟨[], by cases t <;> rfl⟩
  | case2 l hl =>
    cases l with
    | nil => exact ⟨[], by cases 0 <;> rfl⟩
    | cons c r => exact ⟨c :: r, rfl⟩
  | case3 fuel rest rest1 hsplit ih =>
    obtain ⟨t, ht⟩ := ih
    refine ⟨'@' :: '[' :: t, ?_⟩
    rw [scanSubAux_match_some fs fuel rest [] rest1 hsplit, if_pos rfl, ht]
    rfl
  | case4 fuel rest p rest1 hsplit hp ih =>
    obtain ⟨t, ht⟩ := ih
    obtain ⟨r, hr⟩ := replace_match_no_decode fs hfs ⟨p⟩
    refine ⟨r.data ++ t, ?_⟩
    rw [scanSubAux_match_some fs fuel rest p rest1 hsplit, if_neg hp, hr]
    simp only [Except.bind]
    rw [ht]
    rfl
  | case5 fuel rest hsplit ih =>
    obtain ⟨t, ht⟩ := ih
    refine ⟨'@' :: '[' :: t, ?_⟩
    rw [scanSubAux_match_none fs fuel rest hsplit, ht]
    rfl
  | case6 fuel c rest hneg ih =>
    obtain ⟨t, ht⟩ := ih
    refine ⟨c :: t, ?_⟩
    rw [scanSubAux_cons_ne fs fuel c rest hneg, ht]
    rfl

theorem subPass_no_decode (fs : FS) (hfs : ∀ p, fs p ≠ .decodeError) (s : String) :
    ∃ t, subPass fs s = .ok t := by
  obtain ⟨t, ht⟩ := scanSubAux_no_decode fs hfs s.data.length s.data
  exact ⟨⟨t⟩, by unfold subPass; rw [ht]; rfl⟩

theorem expandLoop_no_decode (fs : FS) (hfs : ∀ p, fs p ≠ .decodeError) :
    ∀ n s, ∃ t, expandLoop fs n s = .ok t := by
  intro n
  induction n with
  | zero => exact fun s => ⟨s, rfl⟩
  | succ n ih =>
    intro s
    obtain ⟨t, ht⟩ := subPass_no_decode fs hfs s
    unfold expandLoop
    simp only [ht]
    by_cases hts : t = s
    · exact ⟨s, by rw [if_pos hts]⟩
    · obtain ⟨u, hu⟩ := ih t
      exact ⟨u, by rw [if_neg hts]; exact hu⟩

theorem process_prompt_no_decode (fs : FS) (hfs : ∀ p, fs p ≠ .decodeError)
    (s : String) : ∃ t, process_prompt fs s = .ok t := by
  unfold process_prompt
  by_cases hs : s = ""
  · exact ⟨s, by rw [if_pos hs]⟩
  · rw [if_neg hs]
    exact expandLoop_no_decode fs hfs 3 s

/-! ### Pass counting for the expansion loop -/

theorem iterPass_zero (fs : FS) (t : String) : iterPass fs 0 t = .ok t := rfl

theorem iterPass_succ_ok (fs : FS) (n : Nat) (t u : String)
    (h : subPass fs t = .ok u) : iterPass fs (n+1) t = iterPass fs n u := by
  show (subPass fs t).bind (iterPass fs n) = iterPass fs n u
  rw [h]
  rfl

theorem iterPass_succ_err (fs : FS) (n : Nat) (t : String)
    (h : subPass fs t = .error ()) : iterPass fs (n+1) t = .error () := by
  show (subPass fs t).bind (iterPass fs n) = .error ()
  rw [h]
  rfl

/-- The loop of `process_prompt` computes some plain `k`-fold iterate of
the substitution pass, with `k` at most the loop bound, stopping exactly
at the first fixed point (or at the bound). -/
theorem expandLoop_pass_count (fs : FS) :
    ∀ n t, ∃ k, k ≤ n ∧ expandLoop fs n t = iterPass fs k t ∧
      (k < n → iterPass fs (k+1) t = iterPass fs k t) ∧
      (∀ j, j < k → iterPass fs (j+1) t ≠ iterPass fs j t) := by
  intro n
  induction n with
  | zero =>
    exact fun t => ⟨0, Nat.le_refl 0, rfl,
      fun h => absurd h (by omega), fun j hj => absurd hj (by omega)⟩
  | succ n ih =>
    intro t
    cases hsp : subPass fs t with
    | error e =>
      obtain ⟨⟩ := e
      refine ⟨1, by omega, ?_, ?_, ?_⟩
      · show expandLoop fs (n+1) t = _
        unfold expandLoop
        simp only [hsp]
        rw [iterPass_succ_err fs 0 t hsp]
      · intro _
        rw [iterPass_succ_err fs 1 t hsp, iterPass_succ_err fs 0 t hsp]
      · intro j hj
        have hj0 : j = 0 := by omega
        subst hj0
        rw [iterPass_succ_err fs 0 t hsp, iterPass_zero]
        intro hcc
        exact Except.noConfusion hcc
    | ok newText =>
      by_cases hne : newText = t
      · refine ⟨0, by omega, ?_, ?_, ?_⟩
        · show expandLoop fs (n+1) t = iterPass fs 0 t
          unfold expandLoop
          simp only [hsp, if_pos hne]
          rfl
        · intro _
          rw [iterPass_succ_ok fs 0 t newText hsp, iterPass_zero, iterPass_zero, hne]
        · intro j hj
          exact absurd hj (by omega)
      · obtain ⟨k, hk, heq, hstop, hmin⟩ := ih newText
        refine ⟨k+1, by omega, ?_, ?_, ?_⟩
        · show expandLoop fs (n+1) t = iterPass fs (k+1) t
          unfold expandLoop
          simp only [hsp, if_neg hne]
          rw [iterPass_succ_ok fs k t newText hsp]
          exact heq
        · intro hlt
          rw [iterPass_succ_ok fs (k+1) t newText hsp, iterPass_succ_ok fs k t newText hsp]
          exact hstop (by omega)
        · intro j hj
          cases j with
          | zero =>
            rw [iterPass_succ_ok fs 0 t newText hsp, iterPass_zero, iterPass_zero]
            intro hcc
            injection hcc with hcc2
            exact hne hcc2
          | succ j =>
            rw [iterPass_succ_ok fs (j+1) t newText hsp, iterPass_succ_ok fs j t newText hsp]
            exact hmin j (by omega)

/-- Filesystem with a four-deep chain of nested references:
`a` holds `@[b]`, `b` holds `@[c]`, `c` holds `@[d]`, `d` holds `X`. -/
def chainFS : FS := fun p =>
  if p = "a" then .content "@[b]"
  else if p = "b" then .content "@[c]"
  else if p = "c" then .content "@[d]"
  else if p = "d" then .content "X"
  else .absent

/-- Filesystem where the existing file `bad.bin` is not valid UTF-8, so
reading it raises `UnicodeDecodeError`. -/
def fsDecode : FS := fun p => if p = "bad.bin" then .decodeError else .absent

/-- Filesystem where every read fails with an OS error. -/
def fsOs : FS := fun _ => .osError

/-! ### Claims about the macro expander -/

/-- C4: for every input text, macro expansion performs at most 3
substitution passes and stops early as soon as a pass leaves the text
unchanged (the iterate index `k` is the first fixed point when below the
bound, and every earlier pass changed the text); consequently the
four-deep chain `a → b → c → d` starting from `@[a]` is only partially
resolved: the result still contains the reference `@[d]`. -/
theorem C4_three_pass_bound :
    (∀ (fs : FS) (t : String), ∃ k, k ≤ 3 ∧ process_prompt fs t = iterPass fs k t ∧
      (k < 3 → iterPass fs (k+1) t = iterPass fs k t) ∧
      (∀ j, j < k → iterPass fs (j+1) t ≠ iterPass fs j t)) ∧
    process_prompt chainFS "@[a]" = .ok "@[d]" ∧ hasMacro "@[d]" = true := by
  refine ⟨?_, by decide, by decide⟩
  intro fs t
  by_cases ht : t = ""
  · subst ht
    refine ⟨0, by omega, rfl, ?_, fun j hj => absurd hj (by omega)⟩
    intro _
    rw [iterPass_succ_ok fs 0 "" "" (subPass_macroFree fs "" (by decide))]
  · obtain ⟨k, hk, heq, hstop, hmin⟩ := expandLoop_pass_count fs 3 t
    refine ⟨k, hk, ?_, hstop, hmin⟩
    unfold process_prompt
    rw [if_neg ht]
    exact heq

/-- C4 witness: the bound instantiated at a concrete filesystem and
text. -/
theorem C4_witness :
    ∃ k, k ≤ 3 ∧
      process_prompt fsEmpty "@[missing.txt]" = iterPass fsEmpty k "@[missing.txt]" ∧
      (k < 3 → iterPass fsEmpty (k+1) "@[missing.txt]" = iterPass fsEmpty k "@[missing.txt]") ∧
      (∀ j, j < k →
        iterPass fsEmpty (j+1) "@[missing.txt]" ≠ iterPass fsEmpty j "@[missing.txt]") :=
  C4_three_pass_bound.1 fsEmpty "@[missing.txt]"

/-- C5: expansion is idempotent on fully-resolved text: whenever
`process_prompt` succeeds with a result containing no remaining macro
reference, running it again returns that result unchanged; text with no
macro match is returned unchanged, and the empty input is returned
unchanged. -/
theorem C5_expand_idempotent :
    (∀ (fs : FS) (t r : String), process_prompt fs t = .ok r → hasMacro r = false →
      process_prompt fs r = .ok r) ∧
    (∀ (fs : FS) (t : String), hasMacro t = false → process_prompt fs t = .ok t) ∧
    (∀ fs : FS, process_prompt fs "" = .ok "") :=
  ⟨fun fs _ r _ hr => process_prompt_macroFree fs r hr,
   fun fs t ht => process_prompt_macroFree fs t ht,
   fun _ => rfl⟩

/-- C5 witness: idempotence at a concrete expansion, a concrete
macro-free text, and the empty input. -/
theorem C5_witness :
    process_prompt fsEmpty "[File not found: missing.txt]" = .ok "[File not found: missing.txt]" ∧
    process_prompt fsEmpty "plain text" = .ok "plain text" ∧
    process_prompt fsEmpty "" = .ok "" :=
  ⟨C5_expand_idempotent.1 fsEmpty "@[missing.txt]" "[File not found: missing.txt]"
      (by decide) (by decide),
   C5_expand_idempotent.2.1 fsEmpty "plain text" (by decide),
   C5_expand_idempotent.2.2 fsEmpty⟩

/-- C3 counterexample: on a filesystem where the existing file `bad.bin`
is not valid UTF-8, the expansion of `@[bad.bin]` raises (the
`UnicodeDecodeError` is a `ValueError`, which the
`except (OSError, IOError)` clause of `replace_match` does not catch),
so a file-related error DOES propagate out of expansion. -/
theorem C3_counterexample : process_prompt fsDecode "@[bad.bin]" = .error () := by decide

/-- C3 amended: a missing path is replaced by the exact literal
`[File not found: <path>]` (in particular `@[missing.txt]` expands to
exactly `[File not found: missing.txt]`), an OS-level read failure is
replaced by the exact literal `[Error reading <path>]`, and expansion
never raises on a filesystem without UTF-8 decoding failures; a
decoding failure on an existing file, however, propagates out of
expansion as an exception. -/
theorem C3_expand_error_markers :
    process_prompt fsEmpty "@[missing.txt]" = .ok "[File not found: missing.txt]" ∧
    (∀ (fs : FS) (p : String), fs p = .absent →
      replace_match fs p = .ok ("[File not found: " ++ p ++ "]")) ∧
    (∀ (fs : FS) (p : String), fs p = .osError →
      replace_match fs p = .ok ("[Error reading " ++ p ++ "]")) ∧
    (∀ fs : FS, (∀ p, fs p ≠ .decodeError) → ∀ t, ∃ r, process_prompt fs t = .ok r) ∧
    process_prompt fsDecode "@[bad.bin]" = .error () := by
  refine ⟨by decide, ?_, ?_, ?_, by decide⟩
  · intro fs p h
    unfold replace_match
    rw [h]
  · intro fs p h
    unfold replace_match
    rw [h]
  · exact fun fs hfs t => process_prompt_no_decode fs hfs t

/-- C3 witness: the marker equations and the no-raise property
instantiated at concrete filesystems and paths. -/
theorem C3_witness :
    replace_match fsEmpty "f.txt" = .ok "[File not found: f.txt]" ∧
    replace_match fsOs "f.txt" = .ok "[Error reading f.txt]" ∧
    (∃ r, process_prompt fsEmpty "@[missing.txt]" = .ok r) :=
  ⟨C3_expand_error_markers.2.1 fsEmpty "f.txt" rfl,
   C3_expand_error_markers.2.2.1 fsOs "f.txt" rfl,
   C3_expand_error_markers.2.2.2.1 fsEmpty (fun _ h => FSEntry.noConfusion h) "@[missing.txt]"⟩

/-! ### Default provider resolution (app.py lines 126-135) -/

/-- Contiguous-substring test on character lists, modelling the Python
`in` operator on strings (`needle in hay`). -/
def substrOf (needle : List Char) : List Char → Bool
  | [] => needle.isEmpty
  | c :: t => needle.isPrefixOf (c :: t) || substrOf needle t

/-- Lower-cased character list of a string, modelling `str.lower()`
(ASCII case folding; the configured names in play are ASCII). -/
def lowerData (s : String) : List Char := s.data.map Char.toLower

/-- The loop condition `default_provider.lower() in name.lower()` of
app.py line 133. -/
def provider_match (cfg name : String) : Bool :=
  substrOf (lowerData cfg) (lowerData name)

/-- The `for i, name in enumerate(provider_names)` search with `break`
(app.py lines 132-135): index of the first matching display name. -/
def findMatchIdx (cfg : String) : List String → Option Nat
  | [] => none
  | n :: rest =>
    if provider_match cfg n then some 0 else (findMatchIdx cfg rest).map (· + 1)

/-- `default_provider_index` as computed by app.py lines 129-135: 0 when
no default is configured (`if default_provider:` falsy on the empty
string) or when no display name matches, else the first match index. -/
def default_provider_index (names : List String) (cfg : String) : Nat :=
  if cfg = "" then 0 else (findMatchIdx cfg names).getD 0

/-- The provider display name the selector defaults to: the entry of
`provider_names` at `default_provider_index`. -/
def resolve_default_provider (names : List String) (cfg : String) : Option String :=
  names[default_provider_index names cfg]?

theorem substrOf_nil_needle : ∀ l : List Char, substrOf [] l = true := by
  intro l
  cases l with
  | nil => rfl
  | cons c t => rfl

theorem findMatchIdx_none_iff (cfg : String) :
    ∀ names : List String, findMatchIdx cfg names = none ↔
      names.find? (fun n => provider_match cfg n) = none := by
  intro names
  induction names with
  | nil => simp [findMatchIdx]
  | cons n rest ih =>
    by_cases h : provider_match cfg n
    · simp [findMatchIdx, h, List.find?_cons_of_pos]
    · rw [List.find?_cons_of_neg rest h]
      simp only [findMatchIdx, if_neg h, Option.map_eq_none', ih]

theorem resolve_default_provider_spec (names : List String) (cfg : String) :
    resolve_default_provider names cfg =
      match names.find? (fun n => provider_match cfg n) with
      | some n => some n
      | none => names.head? := by
  by_cases hc : cfg = ""
  · subst hc
    have hall : ∀ n : String, provider_match "" n = true := by
      intro n
      unfold provider_match lowerData
      simp only [List.map_nil]
      exact substrOf_nil_needle _
    cases names with
    | nil => rfl
    | cons n rest =>
      rw [List.find?_cons_of_pos _ (hall n)]
      simp [resolve_default_provider, default_provider_index]
  · rw [resolve_default_provider, default_provider_index, if_neg hc]
    induction names with
    | nil => rfl
    | cons n rest ih =>
      by_cases hm : provider_match cfg n
      · rw [List.find?_cons_of_pos _ hm]
        simp [findMatchIdx, hm]
      · rw [List.find?_cons_of_neg rest hm]
        cases hf : findMatchIdx cfg rest with
        | none =>
          have hfr : rest.find? (fun m => provider_match cfg m) = none :=
            (findMatchIdx_none_iff cfg rest).mp hf
          rw [hfr]
          simp [findMatchIdx, hm, hf]
        | some i =>
          cases hfr : rest.find? (fun m => provider_match cfg m) with
          | none =>
            rw [(findMatchIdx_none_iff cfg rest).mpr hfr] at hf
            exact Option.noConfusion hf
          | some m =>
            have ih2 := ih
            rw [hf, hfr] at ih2
            simp only [findMatchIdx, if_neg hm, hf, Option.map_some', Option.getD_some]
            rw [List.getElem?_cons_succ]
            exact ih2

/-- C6: the default provider is the first display name containing the
configured name as a case-insensitive substring, and the first available
name when no display name matches or no default is configured; in
particular `"ollama"` resolves to `"Ollama (Local)"` and
`"nonexistent"` to the first element. -/
theorem C6_default_provider_resolution :
    (∀ (names : List String) (cfg : String),
      resolve_default_provider names cfg =
        match names.find? (fun n => provider_match cfg n) with
        | some n => some n
        | none => names.head?) ∧
    resolve_default_provider ["Ollama (Local)", "IBM watsonx"] "ollama" =
      some "Ollama (Local)" ∧
    resolve_default_provider ["Ollama (Local)", "IBM watsonx"] "nonexistent" =
      some "Ollama (Local)" :=
  ⟨resolve_default_provider_spec, by decide, by decide⟩

/-! ### Default model resolution (app.py lines 160-175) -/

/-- Per-provider section of config.json: `providers.<key>`. -/
structure ProviderCfg where
  default_model : Option String
deriving DecidableEq, Repr

/-- The parts of config.json that default-model resolution reads: the
top-level `default_model` and the `providers` mapping (modelled as an
association list, first match wins, as for a JSON object). -/
structure AppConfig where
  default_model : Option String
  providers : List (String × ProviderCfg)
deriving DecidableEq, Repr

/-- `config.get("providers", \x7b\x7d).get(provider_key, \x7b\x7d).get("default_model")`
(app.py lines 165-166). -/
def provider_default_model (cfg : AppConfig) (key : String) : Option String :=
  (cfg.providers.lookup key).bind (fun pc => pc.default_model)

/-- Python truthiness of an optional string: `None` and `""` are falsy. -/
def optTruthy : Option String → Bool
  | none => false
  | some s => !(s == "")

/-- The `if not default_model: default_model = config.get("default_model")`
fallback (app.py lines 169-170): the provider-specific default when it
is truthy, else the global default. -/
def effective_default_model (cfg : AppConfig) (key : String) : Option String :=
  if optTruthy (provider_default_model cfg key) then provider_default_model cfg key
  else cfg.default_model

/-- `model_names.index(m)`: index of the first occurrence. -/
def pyIndex (m : String) : List String → Nat
  | [] => 0
  | x :: t => if x = m then 0 else pyIndex m t + 1

/-- `default_index` selection of app.py lines 173-175 followed by the
selector defaulting to `model_names[default_index]`: the effective
default when it is truthy and listed, else index 0. -/
def resolve_default_model (models : List String) (key : String) (cfg : AppConfig) :
    Option String :=
  match effective_default_model cfg key with
  | none => models[(0 : Nat)]?
  | some m => if m ≠ "" ∧ m ∈ models then models[pyIndex m models]? else models[(0 : Nat)]?

theorem pyIndex_getElem {m : String} :
    ∀ models : List String, m ∈ models → models[pyIndex m models]? = some m := by
  intro models
  induction models with
  | nil => intro h; exact absurd h (by simp)
  | cons x t ih =>
    intro h
    by_cases hx : x = m
    · rw [pyIndex, if_pos hx, List.getElem?_cons_zero, hx]
    · have hmt : m ∈ t := by
        cases List.mem_cons.mp h with
        | inl h2 => exact absurd h2.symm hx
        | inr h2 => exact h2
      rw [pyIndex, if_neg hx, List.getElem?_cons_succ]
      exact ih hmt

theorem getElem?_zero_head (l : List String) : l[(0 : Nat)]? = l.head? := by
  cases l with
  | nil => rfl
  | cons x t => rw [List.getElem?_cons_zero]; rfl

/-- C7: the provider-specific configured default takes precedence over
the global default (whenever it is set and nonempty it is the effective
default, and it is selected when listed); when the provider-specific
default is falsy the global default is the effective one and is
selected when nonempty and listed; when the effective default is not a
nonempty listed model the first listed model is selected; and the
concrete example from the spec resolves to `"mistral"`. -/
theorem C7_default_model_resolution :
    (∀ (models : List String) (key : String) (cfg : AppConfig) (m : String),
      provider_default_model cfg key = some m → m ≠ "" →
      effective_default_model cfg key = some m ∧
      (m ∈ models → resolve_default_model models key cfg = some m)) ∧
    (∀ (models : List String) (key : String) (cfg : AppConfig),
      optTruthy (provider_default_model cfg key) = false →
      effective_default_model cfg key = cfg.default_model ∧
      (∀ g, cfg.default_model = some g → g ≠ "" → g ∈ models →
        resolve_default_model models key cfg = some g)) ∧
    (∀ (models : List String) (key : String) (cfg : AppConfig),
      (∀ m, effective_default_model cfg key = some m → m = "" ∨ m ∉ models) →
      resolve_default_model models key cfg = models.head?) ∧
    resolve_default_model ["mistral", "llama3"] "ollama"
      ⟨none, [("ollama", ⟨some "mistral"⟩)]⟩ = some "mistral" := by
  refine ⟨?_, ?_, ?_, by decide⟩
  · intro models key cfg m hpm hm
    have heff : effective_default_model cfg key = some m := by
      unfold effective_default_model
      rw [hpm]
      have : optTruthy (some m) = true := by
        unfold optTruthy
        simp [hm]
      rw [this, if_pos rfl]
    refine ⟨heff, ?_⟩
    intro hmem
    unfold resolve_default_model
    simp only [heff]
    rw [if_pos ⟨hm, hmem⟩]
    exact pyIndex_getElem models hmem
  · intro models key cfg hft
    have heff : effective_default_model cfg key = cfg.default_model := by
      unfold effective_default_model
      rw [hft]
      simp
    refine ⟨heff, ?_⟩
    intro g hg hg1 hg2
    unfold resolve_default_model
    simp only [heff, hg]
    rw [if_pos ⟨hg1, hg2⟩]
    exact pyIndex_getElem models hg2
  · intro models key cfg hnone
    unfold resolve_default_model
    cases heff : effective_default_model cfg key with
    | none => exact getElem?_zero_head models
    | some m =>
      have := hnone m heff
      simp only [heff]
      rw [if_neg ?_]
      · exact getElem?_zero_head models
      · intro hcon
        cases this with
        | inl h2 => exact hcon.1 h2
        | inr h2 => exact h2 hcon.2

/-- C7 witness: precedence, global fallback, and first-model fallback at
concrete inputs. -/
theorem C7_witness :
    (effective_default_model ⟨some "llama3", [("ollama", ⟨some "mistral"⟩)]⟩ "ollama" =
        some "mistral" ∧
      resolve_default_model ["mistral", "llama3"] "ollama"
        ⟨some "llama3", [("ollama", ⟨some "mistral"⟩)]⟩ = some "mistral") ∧
    resolve_default_model ["mistral", "llama3"] "ollama" ⟨some "llama3", []⟩ =
      some "llama3" ∧
    resolve_default_model ["mistral", "llama3"] "ollama" ⟨some "absent-model", []⟩ =
      (["mistral", "llama3"] : List String).head? := by
  refine ⟨?_, ?_, ?_⟩
  · have h := C7_default_model_resolution.1 ["mistral", "llama3"] "ollama"
      ⟨some "llama3", [("ollama", ⟨some "mistral"⟩)]⟩ "mistral" (by decide) (by decide)
    exact ⟨h.1, h.2 (by decide)⟩
  · exact (C7_default_model_resolution.2.1 ["mistral", "llama3"] "ollama"
      ⟨some "llama3", []⟩ (by decide)).2 "llama3" rfl (by decide) (by decide)
  · refine C7_default_model_resolution.2.2.1 ["mistral", "llama3"] "ollama"
      ⟨some "absent-model", []⟩ ?_
    intro m hm
    have : some "absent-model" = some m := hm
    injection this with h2
    subst h2
    right
    decide

/-! ### Chat-turn pipeline (app.py lines 341-415) -/

/-- A chat message: role (`system`, `user` or `assistant`) and text. -/
structure Message where
  role : String
  content : String
deriving DecidableEq, Repr

/-- Outcome of iterating the provider stream: the content fragments of
the chunks it yielded, and whether it then completed normally or raised
(before yielding any chunk, or mid-iteration). -/
inductive StreamOutcome where
  | ok (chunks : List String)
  | failed (chunks : List String)
deriving DecidableEq, Repr

/-- The content fragments yielded before the stream ended or raised. -/
def StreamOutcome.chunks : StreamOutcome → List String
  | .ok cs => cs
  | .failed cs => cs

/-- The stream loop of app.py lines 405-407: start from the empty
`full_response` and append each truthy (non-empty) chunk content. -/
def accumChunks (cs : List String) : String :=
  cs.foldl (fun acc c => if c = "" then acc else acc ++ c) ""

/-- `full_response` at the end of the `try` block: the accumulated
fragments received before the stream completed or raised. -/
def streamAccum : StreamOutcome → String
  | .ok cs => accumChunks cs
  | .failed cs => accumChunks cs

/-- The optional leading system message (app.py lines 375-377 and
469-471): present exactly when the system prompt is non-empty. -/
def sysPart (sys : String) : List Message :=
  if sys = "" then [] else [⟨"system", sys⟩]

/-- The history re-processing loop of app.py lines 389-391: every
message is re-expanded with `process_prompt` at send time, keeping its
role; an exception propagates (it will be caught by the surrounding
`try`). -/
def mapExpand (fs : FS) : List Message → Except Unit (List Message)
  | [] => .ok []
  | m :: ms =>
    (process_prompt fs m.content).bind (fun c =>
      (mapExpand fs ms).map (fun rest => ⟨m.role, c⟩ :: rest))

/-- One `File: <name>\nContent:\n<content>\n` entry of the uploaded-file
block (app.py line 354), with its leading newline. -/
def fileEntry (nc : String × String) : String :=
  "\nFile: " ++ nc.1 ++ "\nContent:\n" ++ nc.2 ++ "\n"

/-- The `file_contents` block of app.py lines 351-355: header line,
one entry per uploaded file (name and extracted content), footer line. -/
def fileBlock (files : List (String × String)) : String :=
  (files.foldl (fun acc nc => acc ++ fileEntry nc) "\n\n--- Uploaded Files ---\n") ++
    "\n----------------------\n"

/-- `messages_payload` assembly (app.py lines 374-393): optional system
message, then every stored message except the just-appended current one
re-expanded, then the current turn with the already-processed prompt. -/
def assemblePayload (fs : FS) (history1 : List Message)
    (processed_prompt sys : String) : Except Unit (List Message) :=
  (mapExpand fs history1.dropLast).map (fun hist =>
    sysPart sys ++ hist ++ [⟨"user", processed_prompt⟩])

/-- The prompt text as stored and displayed (app.py line 358): with
files attached, the raw prompt gets the `\x20*(<n> files attached)*`
suffix before being appended to the history. -/
def shownPrompt (prompt : String) (files : List (String × String)) : String :=
  if files.isEmpty then prompt
  else prompt ++ " *(" ++ Nat.repr files.length ++ " files attached)*"

/-- The content of the current user turn in the payload (app.py lines
347-356): the macro-expanded raw prompt, with the uploaded-file block
appended when files are attached. -/
def currentContent (p0 : String) (files : List (String × String)) : String :=
  if files.isEmpty then p0 else p0 ++ fileBlock files

/-- Result of one submitted chat turn: the stored message list after the
turn, and the payload passed to `provider.chat` (`none` when the
exception occurred before the provider was called). -/
structure TurnResult where
  history : List Message
  sent : Option (List Message)
deriving DecidableEq, Repr

/-- One submitted chat turn (app.py lines 341-415), given the
filesystem, the stored history, the raw prompt, the system prompt, the
uploaded files (name and extracted content) and the stream outcome:

* line 347: the raw prompt is macro-expanded OUTSIDE the `try` block, so
  a raised `UnicodeDecodeError` aborts the turn with nothing appended
  (modelled by `Except.error`);
* lines 350-358: with files attached, the file block is appended to the
  processed prompt, and the DISPLAYED/stored prompt gets the
  `\x20*(<n> files attached)*` suffix;
* line 362: the (suffixed) raw prompt is appended to the history;
* lines 373-412: inside `try`, the payload is assembled and the stream
  consumed; any exception is caught, leaving `full_response` at the
  fragments accumulated so far (the empty string when the payload
  assembly itself raised, in which case the provider was never called);
* line 415: the assistant message is appended UNCONDITIONALLY, after the
  `try`/`except`. -/
def chatTurn (fs : FS) (history : List Message) (prompt sys : String)
    (files : List (String × String)) (stream : StreamOutcome) :
    Except Unit TurnResult :=
  (process_prompt fs prompt).map (fun processed0 =>
    let history1 := history ++ [⟨"user", shownPrompt prompt files⟩]
    match assemblePayload fs history1 (currentContent processed0 files) sys with
    | .error _ => ⟨history1 ++ [⟨"assistant", ""⟩], none⟩
    | .ok payload => ⟨history1 ++ [⟨"assistant", streamAccum stream⟩], some payload⟩)

/-- The payload of the text-transformation path (app.py lines 459-472):
template body and user text are macro-expanded inside the `try`, joined
by a blank line, and sent as the single user message after the optional
system message; no history is involved. -/
def transformPayload (fs : FS) (template_body user_text sys : String) :
    Except Unit (List Message) :=
  (process_prompt fs template_body).bind (fun t =>
    (process_prompt fs user_text).map (fun u =>
      sysPart sys ++ [⟨"user", t ++ "\n\n" ++ u⟩]))

example :
    chatTurn fsEmpty [] "hi" "" [] (.failed []) =
      .ok ⟨[⟨"user", "hi"⟩, ⟨"assistant", ""⟩], some [⟨"user", "hi"⟩]⟩ := by decide

example :
    chatTurn fsEmpty [⟨"user", "a"⟩] "hi" "s" [] (.ok ["x", "", "y"]) =
      .ok ⟨[⟨"user", "a"⟩, ⟨"user", "hi"⟩, ⟨"assistant", "xy"⟩],
        some [⟨"system", "s"⟩, ⟨"user", "a"⟩, ⟨"user", "hi"⟩]⟩ := by decide

/-! ### Analysis lemmas for the chat turn -/

theorem except_map_ok {α β : Type} (f : α → β) (a : α) :
    (Except.ok a : Except Unit α).map f = .ok (f a) := rfl

theorem except_map_err {α β : Type} (f : α → β) :
    (Except.error () : Except Unit α).map f = .error () := rfl

theorem except_bind_ok {α β : Type} (f : α → Except Unit β) (a : α) :
    (Except.ok a : Except Unit α).bind f = f a := rfl

theorem except_bind_err {α β : Type} (f : α → Except Unit β) :
    (Except.error () : Except Unit α).bind f = .error () := rfl

theorem streamAccum_eq_chunks (s : StreamOutcome) :
    streamAccum s = accumChunks s.chunks := by
  cases s with
  | ok cs => rfl
  | failed cs => rfl

theorem mapExpand_length (fs : FS) :
    ∀ ms res, mapExpand fs ms = .ok res → res.length = ms.length := by
  intro ms
  induction ms with
  | nil =>
    intro res h
    injection h with h2
    rw [← h2]
  | cons m rest ih =>
    intro res h
    unfold mapExpand at h
    cases hp : process_prompt fs m.content with
    | error e =>
      obtain ⟨⟩ := e
      rw [hp, except_bind_err] at h
      exact Except.noConfusion h
    | ok c =>
      rw [hp, except_bind_ok] at h
      cases hm : mapExpand fs rest with
      | error e =>
        obtain ⟨⟩ := e
        rw [hm, except_map_err] at h
        exact Except.noConfusion h
      | ok res2 =>
        rw [hm, except_map_ok] at h
        injection h with h2
        rw [← h2]
        simp [ih res2 hm]

theorem assemblePayload_ok {fs : FS} {h1 : List Message} {pp sys : String}
    {payload : List Message}
    (ha : assemblePayload fs h1 pp sys = .ok payload) :
    ∃ hist, mapExpand fs h1.dropLast = .ok hist ∧
      payload = sysPart sys ++ hist ++ [⟨"user", pp⟩] := by
  unfold assemblePayload at ha
  cases hm : mapExpand fs h1.dropLast with
  | error e =>
    obtain ⟨⟩ := e
    rw [hm, except_map_err] at ha
    exact Except.noConfusion ha
  | ok hist =>
    rw [hm, except_map_ok] at ha
    injection ha with h2
    exact ⟨hist, rfl, h2.symm⟩

/-- Case analysis of a successful chat turn: the raw prompt expanded,
and either the payload assembly raised (assistant content empty,
nothing sent) or the payload was sent and the stream accumulated. -/
theorem chatTurn_ok_cases {fs : FS} {h : List Message} {prompt sys : String}
    {files : List (String × String)} {stream : StreamOutcome} {r : TurnResult}
    (hok : chatTurn fs h prompt sys files stream = .ok r) :
    ∃ p0, process_prompt fs prompt = .ok p0 ∧
      ((assemblePayload fs (h ++ [⟨"user", shownPrompt prompt files⟩])
          (currentContent p0 files) sys = .error () ∧
        r = ⟨h ++ [⟨"user", shownPrompt prompt files⟩] ++ [⟨"assistant", ""⟩], none⟩) ∨
      (∃ payload,
        assemblePayload fs (h ++ [⟨"user", shownPrompt prompt files⟩])
          (currentContent p0 files) sys = .ok payload ∧
        r = ⟨h ++ [⟨"user", shownPrompt prompt files⟩] ++
              [⟨"assistant", streamAccum stream⟩], some payload⟩)) := by
  cases hp : process_prompt fs prompt with
  | error e =>
    obtain ⟨⟩ := e
    unfold chatTurn at hok
    rw [hp, except_map_err] at hok
    exact Except.noConfusion hok
  | ok p0 =>
    refine ⟨p0, rfl, ?_⟩
    unfold chatTurn at hok
    rw [hp, except_map_ok] at hok
    cases ha : assemblePayload fs (h ++ [⟨"user", shownPrompt prompt files⟩])
        (currentContent p0 files) sys with
    | error e2 =>
      obtain ⟨⟩ := e2
      left
      refine ⟨rfl, ?_⟩
      simp only [ha] at hok
      injection hok with hb
      exact hb.symm
    | ok payload =>
      right
      refine ⟨payload, rfl, ?_⟩
      simp only [ha] at hok
      injection hok with hb
      exact hb.symm

/-! ### Substring facts about the uploaded-file block -/

theorem str_ext {a b : String} (h : a.data = b.data) : a = b := by
  cases a with
  | mk d1 =>
    cases b with
    | mk d2 =>
      cases h
      rfl

theorem str_data_append (a b : String) : (a ++ b).data = a.data ++ b.data := rfl

theorem str_append_assoc (a b c : String) : a ++ b ++ c = a ++ (b ++ c) :=
  str_ext (List.append_assoc a.data b.data c.data)

theorem str_append_empty (s : String) : s ++ "" = s :=
  str_ext (List.append_nil s.data)

/-- `needle` occurs contiguously inside `hay`. -/
def strContainsSub (needle hay : String) : Prop :=
  ∃ s t : String, hay = s ++ needle ++ t

theorem foldl_entry_shift :
    ∀ (files : List (String × String)) (acc : String),
      ∃ t : String, files.foldl (fun a nc => a ++ fileEntry nc) acc = acc ++ t := by
  intro files
  induction files with
  | nil => exact fun acc => ⟨"", (str_append_empty acc).symm⟩
  | cons nc rest ih =>
    intro acc
    obtain ⟨t, ht⟩ := ih (acc ++ fileEntry nc)
    refine ⟨fileEntry nc ++ t, ?_⟩
    rw [List.foldl_cons, ht, str_append_assoc]

theorem foldl_entry_found {nc : String × String} :
    ∀ (files : List (String × String)), nc ∈ files → ∀ acc : String,
      ∃ s t : String,
        files.foldl (fun a x => a ++ fileEntry x) acc = s ++ fileEntry nc ++ t := by
  intro files
  induction files with
  | nil => intro h; exact absurd h (by simp)
  | cons x rest ih =>
    intro h acc
    cases List.mem_cons.mp h with
    | inl heq =>
      subst heq
      obtain ⟨t, ht⟩ := foldl_entry_shift rest (acc ++ fileEntry nc)
      exact ⟨acc, t, by rw [List.foldl_cons, ht]⟩
    | inr hmem =>
      exact ih hmem (acc ++ fileEntry x)

theorem fileBlock_has_header (files : List (String × String)) :
    strContainsSub "--- Uploaded Files ---" (fileBlock files) := by
  obtain ⟨t, ht⟩ := foldl_entry_shift files "\n\n--- Uploaded Files ---\n"
  refine ⟨"\n\n", "\n" ++ (t ++ "\n----------------------\n"), ?_⟩
  rw [fileBlock, ht]
  apply str_ext
  simp only [str_data_append, List.append_assoc, List.cons_append, List.nil_append]

theorem fileBlock_has_footer (files : List (String × String)) :
    strContainsSub "----------------------" (fileBlock files) := by
  refine ⟨files.foldl (fun a nc => a ++ fileEntry nc) "\n\n--- Uploaded Files ---\n" ++ "\n",
    "\n", ?_⟩
  rw [fileBlock]
  apply str_ext
  simp only [str_data_append, List.append_assoc, List.cons_append, List.nil_append]

theorem fileBlock_has_entry {files : List (String × String)} {nc : String × String}
    (h : nc ∈ files) :
    strContainsSub ("File: " ++ nc.1 ++ "\nContent:\n" ++ nc.2) (fileBlock files) := by
  obtain ⟨s, t, hst⟩ := foldl_entry_found files h "\n\n--- Uploaded Files ---\n"
  refine ⟨s ++ "\n", "\n" ++ (t ++ "\n----------------------\n"), ?_⟩
  rw [fileBlock, hst]
  apply str_ext
  simp only [str_data_append, fileEntry, List.append_assoc, List.cons_append, List.nil_append]

/-! ### Claims about the chat turn and the transformation payload -/

/-- C10: every submitted chat turn that reaches the response phase
appends exactly two messages — first the user message, then an
assistant message whose content is the accumulation, in stream order,
of the non-empty content fragments received before the stream ended or
raised (the empty string when the provider was never called). -/
theorem C10_two_messages_appended :
    ∀ (fs : FS) (h : List Message) (prompt sys : String)
      (files : List (String × String)) (stream : StreamOutcome) (r : TurnResult),
      chatTurn fs h prompt sys files stream = .ok r →
      r.history = h ++ [⟨"user", shownPrompt prompt files⟩,
        ⟨"assistant", if r.sent.isSome then accumChunks stream.chunks else ""⟩] ∧
      r.history.length = h.length + 2 := by
  intro fs h prompt sys files stream r hok
  obtain ⟨p0, hp, hcase⟩ := chatTurn_ok_cases hok
  cases hcase with
  | inl hc =>
    obtain ⟨ha, hr⟩ := hc
    subst hr
    exact ⟨by simp, by simp⟩
  | inr hc =>
    obtain ⟨payload, ha, hr⟩ := hc
    subst hr
    exact ⟨by simp [streamAccum_eq_chunks], by simp⟩

/-- C10 witness: a concrete turn with a successful stream. -/
theorem C10_witness :
    ((⟨[⟨"user", "hi"⟩, ⟨"assistant", "xy"⟩], some [⟨"user", "hi"⟩]⟩ : TurnResult).history =
      ([] : List Message) ++ [⟨"user", shownPrompt "hi" []⟩,
        ⟨"assistant",
          if (⟨[⟨"user", "hi"⟩, ⟨"assistant", "xy"⟩],
              some [⟨"user", "hi"⟩]⟩ : TurnResult).sent.isSome
          then accumChunks (StreamOutcome.ok ["x", "", "y"]).chunks else ""⟩]) ∧
    (⟨[⟨"user", "hi"⟩, ⟨"assistant", "xy"⟩], some [⟨"user", "hi"⟩]⟩ :
      TurnResult).history.length = ([] : List Message).length + 2 :=
  C10_two_messages_appended fsEmpty [] "hi" "" [] (.ok ["x", "", "y"]) _ (by decide)

/-- C1 counterexample: a turn whose stream raises before yielding any
chunk still commits an assistant message (line 415 of app.py runs after
the `except`), so the history grows by TWO messages, not one. -/
theorem C1_counterexample :
    chatTurn fsEmpty [] "hi" "" [] (.failed []) =
      .ok ⟨[⟨"user", "hi"⟩, ⟨"assistant", ""⟩], some [⟨"user", "hi"⟩]⟩ ∧
    ¬ (([⟨"user", "hi"⟩, ⟨"assistant", ""⟩] : List Message).length =
        ([] : List Message).length + 1) :=
  ⟨by decide, by decide⟩

/-- C1 amended: when the provider stream raises before or during
iteration, the error is caught, but a partial assistant message IS
committed: the history grows by exactly two messages — the user turn
and an assistant message holding the partial (possibly empty)
accumulated content. -/
theorem C1_failed_stream_appends_two :
    ∀ (fs : FS) (h : List Message) (prompt sys : String)
      (files : List (String × String)) (chunks : List String) (r : TurnResult),
      chatTurn fs h prompt sys files (.failed chunks) = .ok r →
      r.history.length = h.length + 2 ∧
      r.history = h ++ [⟨"user", shownPrompt prompt files⟩,
        ⟨"assistant", if r.sent.isSome then accumChunks chunks else ""⟩] := by
  intro fs h prompt sys files chunks r hok
  obtain ⟨p0, hp, hcase⟩ := chatTurn_ok_cases hok
  cases hcase with
  | inl hc =>
    obtain ⟨ha, hr⟩ := hc
    subst hr
    exact ⟨by simp, by simp⟩
  | inr hc =>
    obtain ⟨payload, ha, hr⟩ := hc
    subst hr
    exact ⟨by simp, by simp [streamAccum]⟩

/-- C1 witness: the amended growth at a concrete failed turn. -/
theorem C1_witness :
    (⟨[⟨"user", "hi"⟩, ⟨"assistant", ""⟩], some [⟨"user", "hi"⟩]⟩ :
      TurnResult).history.length = ([] : List Message).length + 2 :=
  (C1_failed_stream_appends_two fsEmpty [] "hi" "" [] []
    ⟨[⟨"user", "hi"⟩, ⟨"assistant", ""⟩], some [⟨"user", "hi"⟩]⟩ (by decide)).1

/-- C2: for every successful chat send the payload is the optional
system message, then every prior message independently macro-expanded
in order, then the current turn (the expanded raw text, with the
uploaded-file block appended when files are attached); the payload
length is at most N+1 plus 1 for a present system prompt; and the file
block carries the literal delimiters and per-file entries. -/
theorem C2_chat_payload :
    (∀ (fs : FS) (h : List Message) (prompt sys : String)
      (files : List (String × String)) (stream : StreamOutcome)
      (r : TurnResult) (payload : List Message),
      chatTurn fs h prompt sys files stream = .ok r →
      r.sent = some payload →
      ∃ p0 hist, process_prompt fs prompt = .ok p0 ∧
        mapExpand fs h = .ok hist ∧ hist.length = h.length ∧
        payload = sysPart sys ++ hist ++ [⟨"user", currentContent p0 files⟩] ∧
        payload.length ≤ h.length + 1 + (sysPart sys).length ∧
        (sysPart sys).length = (if sys = "" then 0 else 1)) ∧
    (∀ files : List (String × String), files ≠ [] →
      strContainsSub "--- Uploaded Files ---" (fileBlock files) ∧
      strContainsSub "----------------------" (fileBlock files) ∧
      ∀ nc ∈ files,
        strContainsSub ("File: " ++ nc.1 ++ "\nContent:\n" ++ nc.2) (fileBlock files)) := by
  constructor
  · intro fs h prompt sys files stream r payload hok hsent
    obtain ⟨p0, hp, hcase⟩ := chatTurn_ok_cases hok
    cases hcase with
    | inl hc =>
      obtain ⟨ha, hr⟩ := hc
      subst hr
      simp at hsent
    | inr hc =>
      obtain ⟨payload2, ha, hr⟩ := hc
      subst hr
      simp only [TurnResult.sent] at hsent
      injection hsent with hsent2
      subst hsent2
      obtain ⟨hist, hme, hpl⟩ := assemblePayload_ok ha
      rw [List.dropLast_concat] at hme
      have hlen := mapExpand_length fs h hist hme
      refine ⟨p0, hist, hp, hme, hlen, hpl, ?_, ?_⟩
      · rw [hpl]
        simp only [List.length_append, List.length_cons, List.length_nil, hlen]
        omega
      · by_cases hsys : sys = ""
        · simp [sysPart, hsys]
        · simp [sysPart, hsys]
  · intro files _
    exact ⟨fileBlock_has_header files, fileBlock_has_footer files,
      fun nc hnc => fileBlock_has_entry hnc⟩

/-- C2 witness: a concrete successful send with one prior message and a
system prompt, and the delimiters of a concrete one-file block. -/
theorem C2_witness :
    (∃ p0 hist, process_prompt fsEmpty "hi" = .ok p0 ∧
      mapExpand fsEmpty [(⟨"user", "a"⟩ : Message)] = .ok hist ∧
      hist.length = [(⟨"user", "a"⟩ : Message)].length ∧
      ([⟨"system", "s"⟩, ⟨"user", "a"⟩, ⟨"user", "hi"⟩] : List Message) =
        sysPart "s" ++ hist ++ [⟨"user", currentContent p0 []⟩] ∧
      ([⟨"system", "s"⟩, ⟨"user", "a"⟩, ⟨"user", "hi"⟩] : List Message).length ≤
        [(⟨"user", "a"⟩ : Message)].length + 1 + (sysPart "s").length ∧
      (sysPart "s").length = (if "s" = "" then 0 else 1)) ∧
    strContainsSub "--- Uploaded Files ---" (fileBlock [("a.txt", "x")]) :=
  ⟨C2_chat_payload.1 fsEmpty [⟨"user", "a"⟩] "hi" "s" [] (.ok ["x"])
      ⟨[⟨"user", "a"⟩, ⟨"user", "hi"⟩, ⟨"assistant", "x"⟩],
        some [⟨"system", "s"⟩, ⟨"user", "a"⟩, ⟨"user", "hi"⟩]⟩
      [⟨"system", "s"⟩, ⟨"user", "a"⟩, ⟨"user", "hi"⟩] (by decide) rfl,
   (C2_chat_payload.2 [("a.txt", "x")] (by decide)).1⟩

/-- C8 counterexample: with one attached file, the stored user message
is NOT the raw input text — app.py line 358 appends the
`\x20*(1 files attached)*` suffix before the history append. -/
theorem C8_counterexample :
    (chatTurn fsEmpty [] "hi" "" [("a.txt", "x")] (.ok [])).map
        (fun r => r.history.map Message.content) =
      .ok ["hi *(1 files attached)*", ""] ∧
    "hi *(1 files attached)*" ≠ "hi" :=
  ⟨by decide, by decide⟩

/-- C8 amended: the history keeps the prior messages untouched and
stores the current turn unexpanded — exactly the raw input for turns
without files, and the raw input plus the literal
`\x20*(<n> files attached)*` suffix for turns with files (file contents
are not stored); on every send, every prior message is re-expanded with
the filesystem as it is at send time. -/
theorem C8_history_stores_unexpanded :
    ∀ (fs : FS) (h : List Message) (prompt sys : String)
      (files : List (String × String)) (stream : StreamOutcome) (r : TurnResult),
      chatTurn fs h prompt sys files stream = .ok r →
      r.history.take h.length = h ∧
      r.history[h.length]? = some ⟨"user", shownPrompt prompt files⟩ ∧
      (files.isEmpty = true → shownPrompt prompt files = prompt) ∧
      (files.isEmpty = false → shownPrompt prompt files =
        prompt ++ " *(" ++ Nat.repr files.length ++ " files attached)*") ∧
      (∀ payload, r.sent = some payload →
        ∃ p0 hist, process_prompt fs prompt = .ok p0 ∧ mapExpand fs h = .ok hist ∧
          payload = sysPart sys ++ hist ++ [⟨"user", currentContent p0 files⟩]) := by
  intro fs h prompt sys files stream r hok
  obtain ⟨p0, hp, hcase⟩ := chatTurn_ok_cases hok
  have hshown1 : files.isEmpty = true → shownPrompt prompt files = prompt := by
    intro hf
    rw [shownPrompt, if_pos hf]
  have hshown2 : files.isEmpty = false → shownPrompt prompt files =
      prompt ++ " *(" ++ Nat.repr files.length ++ " files attached)*" := by
    intro hf
    rw [shownPrompt, if_neg (by simp [hf])]
  cases hcase with
  | inl hc =>
    obtain ⟨ha, hr⟩ := hc
    subst hr
    refine ⟨?_, ?_, hshown1, hshown2, ?_⟩
    · simp only [TurnResult.history]
      rw [List.append_assoc]
      exact List.take_left h _
    · simp only [TurnResult.history]
      rw [List.getElem?_append, if_pos (by simp), List.getElem?_concat_length]
    · intro payload hsent
      simp at hsent
  | inr hc =>
    obtain ⟨payload2, ha, hr⟩ := hc
    subst hr
    refine ⟨?_, ?_, hshown1, hshown2, ?_⟩
    · simp only [TurnResult.history]
      rw [List.append_assoc]
      exact List.take_left h _
    · simp only [TurnResult.history]
      rw [List.getElem?_append, if_pos (by simp), List.getElem?_concat_length]
    · intro payload hsent
      simp only [TurnResult.sent] at hsent
      injection hsent with hsent2
      subst hsent2
      obtain ⟨hist, hme, hpl⟩ := assemblePayload_ok ha
      rw [List.dropLast_concat] at hme
      exact ⟨p0, hist, hp, hme, hpl⟩

/-- C8 witness: a concrete turn with one attached file — the prior
history is preserved and the stored turn carries the suffix. -/
theorem C8_witness :
    ([⟨"user", "old"⟩, ⟨"user", "hi *(1 files attached)*"⟩, ⟨"assistant", ""⟩] :
        List Message).take 1 = [⟨"user", "old"⟩] ∧
    ([⟨"user", "old"⟩, ⟨"user", "hi *(1 files attached)*"⟩, ⟨"assistant", ""⟩] :
        List Message)[1]? = some ⟨"user", shownPrompt "hi" [("a.txt", "x")]⟩ := by
  have hw := C8_history_stores_unexpanded fsEmpty [⟨"user", "old"⟩] "hi" "" [("a.txt", "x")]
      (.ok []) ⟨[⟨"user", "old"⟩, ⟨"user", "hi *(1 files attached)*"⟩, ⟨"assistant", ""⟩],
        some [⟨"user", "old"⟩, ⟨"user", "hi" ++ fileBlock [("a.txt", "x")]⟩]⟩ (by decide)
  exact ⟨hw.1, hw.2.1⟩

/-- C9: the transformation payload is the optional system message
followed by a single user message — the macro-expanded template body,
the blank-line separator, then the macro-expanded user text — with no
history; the `Summarize` example produces exactly the expected prompt. -/
theorem C9_transform_payload :
    (∀ (fs : FS) (tb ut sys : String) (payload : List Message),
      ut ≠ "" → transformPayload fs tb ut sys = .ok payload →
      ∃ t u, process_prompt fs tb = .ok t ∧ process_prompt fs ut = .ok u ∧
        payload = sysPart sys ++ [⟨"user", t ++ "\n\n" ++ u⟩] ∧
        payload.length = 1 + (if sys = "" then 0 else 1)) ∧
    transformPayload fsEmpty "Summarize the following text:" "Execute this text" "" =
      .ok [⟨"user", "Summarize the following text:\n\nExecute this text"⟩] := by
  refine ⟨?_, by decide⟩
  intro fs tb ut sys payload hut hok
  unfold transformPayload at hok
  cases ht : process_prompt fs tb with
  | error e =>
    obtain ⟨⟩ := e
    rw [ht, except_bind_err] at hok
    exact Except.noConfusion hok
  | ok t =>
    rw [ht, except_bind_ok] at hok
    cases hu : process_prompt fs ut with
    | error e =>
      obtain ⟨⟩ := e
      rw [hu, except_map_err] at hok
      exact Except.noConfusion hok
    | ok u =>
      rw [hu, except_map_ok] at hok
      injection hok with hb
      refine ⟨t, u, rfl, rfl, hb.symm, ?_⟩
      rw [← hb]
      by_cases hsys : sys = ""
      · simp [sysPart, hsys]
      · simp [sysPart, hsys]

/-- C9 witness: the universal part instantiated at the `Summarize`
example. -/
theorem C9_witness :
    ∃ t u, process_prompt fsEmpty "Summarize the following text:" = .ok t ∧
      process_prompt fsEmpty "Execute this text" = .ok u ∧
      ([⟨"user", "Summarize the following text:\n\nExecute this text"⟩] : List Message) =
        sysPart "" ++ [⟨"user", t ++ "\n\n" ++ u⟩] ∧
      ([⟨"user", "Summarize the following text:\n\nExecute this text"⟩] :
        List Message).length = 1 + (if ("" : String) = "" then 0 else 1) :=
  C9_transform_payload.1 fsEmpty "Summarize the following text:" "Execute this text" ""
    [⟨"user", "Summarize the following text:\n\nExecute this text"⟩]
    (by decide) (by decide)
